import Mathlib

/-!  Shallow embedding of the matching / ranking / selection engine of the
TCG price-lookup server (`src/server.js`).  Strings are modelled as `List Char`
(one entry per code point; all inputs of interest are ASCII, where JavaScript
UTF-16 code units and code points coincide).  JavaScript numbers are modelled
by `JsNum` (`null`, `NaN`, or an exact rational); the decimal strings produced
by the price parser are exactly representable, and every comparison performed
by the engine coincides with the IEEE-754 double comparison on these values. -/

namespace MtgSpec

/-- Shorthand turning a string literal into its character list. -/
def str (s : String) : List Char := s.data

/-- Whitespace test backing JavaScript `trim` and `split(/\s+/)` (the engine
only ever meets the ASCII whitespace characters). -/
def isWS (c : Char) : Bool :=
  c = ' ' || c = '\t' || c = '\n' || c = '\r' || c = '\x0b' || c = '\x0c'

/-- JavaScript `String.prototype.trim`. -/
def trimL (l : List Char) : List Char :=
  ((l.dropWhile isWS).reverse.dropWhile isWS).reverse

/-- JavaScript `String.prototype.toLowerCase` (ASCII fragment). -/
def lowerL (l : List Char) : List Char := l.map Char.toLower

/-- JavaScript `hay.includes(needle)`. -/
def containsSub : List Char → List Char → Bool
  | [], needle => needle.isEmpty
  | c :: t, needle => needle.isPrefixOf (c :: t) || containsSub t needle

/-- Collapse every maximal whitespace run into a single space; first half of
the model of `split(/\s+/)`. -/
def collapseWS : List Char → List Char
  | [] => []
  | [c] => if isWS c then [' '] else [c]
  | c :: d :: rest =>
    if isWS c && isWS d then collapseWS (d :: rest)
    else (if isWS c then ' ' else c) :: collapseWS (d :: rest)

/-- Split at single spaces, keeping empty boundary pieces, exactly as
JavaScript `split` does. -/
def splitOnSpace : List Char → List (List Char)
  | [] => [[]]
  | c :: rest =>
    if c = ' ' then [] :: splitOnSpace rest
    else
      match splitOnSpace rest with
      | [] => [[c]]
      | p :: ps => (c :: p) :: ps

/-- JavaScript `s.split(/\s+/)`: an empty string yields `[""]`, and leading or
trailing whitespace yields empty boundary pieces. -/
def splitWS (l : List Char) : List (List Char) :=
  splitOnSpace (collapseWS l)

/-- Structural worker for `removeSub`; the fuel only bounds the recursion
depth, and one unit per consumed character always suffices. -/
def removeSubF (needle : List Char) : Nat → List Char → List Char
  | _, [] => []
  | 0, l => l
  | fuel + 1, c :: rest =>
    if needle ≠ [] ∧ needle.isPrefixOf (c :: rest) then
      removeSubF needle fuel ((c :: rest).drop needle.length)
    else
      c :: removeSubF needle fuel rest

/-- JavaScript global replacement by the empty string,
`hay.replace(/needle/g, "")`: one left-to-right pass, non-overlapping, and the
freshly created text is not rescanned (each step consumes at least one
character, so `l.length` units of fuel make `removeSubF` total on `l`). -/
def removeSub (needle l : List Char) : List Char :=
  removeSubF needle l.length l

/-- JavaScript `hay.replace(needle, repl)` with string arguments: only the
first occurrence is replaced (replacement `$`-patterns are not modelled; the
theorems using this assume the replacement contains no dollar sign). -/
def jsReplaceFirst (needle repl : List Char) : List Char → List Char
  | [] => if needle.isEmpty then repl else []
  | c :: rest =>
    if needle.isPrefixOf (c :: rest) then repl ++ (c :: rest).drop needle.length
    else c :: jsReplaceFirst needle repl rest

/-- Value space of the price parser: JavaScript `null`, `NaN`, or a number
(the decimal strings the engine parses are exact rationals). -/
inductive JsNum where
  | null : JsNum
  | nan : JsNum
  | num : ℚ → JsNum
deriving DecidableEq

/-- Numeric value of a digit string (JavaScript semantics of the integer part
of `parseFloat`). -/
def digitsToNat (l : List Char) : Nat :=
  l.foldl (fun acc c => 10 * acc + (c.toNat - '0'.toNat)) 0

/-- JavaScript `parseFloat` restricted to the digit-and-dot strings produced
by the price stripper: the longest prefix of shape `digits [. digits]` is
parsed; if that prefix is empty the result is `NaN`. -/
def parseFloatDD (l : List Char) : JsNum :=
  let ip := l.takeWhile Char.isDigit
  let r := l.dropWhile Char.isDigit
  match r with
  | '.' :: r2 =>
    let fp := r2.takeWhile Char.isDigit
    if ip.isEmpty && fp.isEmpty then JsNum.nan
    else JsNum.num ((digitsToNat ip : ℚ) + (digitsToNat fp : ℚ) / (10 : ℚ) ^ fp.length)
  | _ => if ip.isEmpty then JsNum.nan else JsNum.num (digitsToNat ip)

/-- The character filter of `parsePrice`: `replace(/[^0-9.]/g, "")`. -/
def stripPrice (l : List Char) : List Char :=
  l.filter (fun c => c.isDigit || c = '.')

/-- `parsePrice` (src/server.js lines 247-250): `null` for the empty string or
the sentinel `"N/A"`, otherwise `parseFloat` of the stripped string. -/
def parsePrice (l : List Char) : JsNum :=
  if l.isEmpty || l = str "N/A" then JsNum.null
  else parseFloatDD (stripPrice l)

/-- A normalized product listing, as produced by the `$$eval` mapper of
src/server.js lines 320-343. -/
structure Listing where
  title : List Char
  market : List Char
  setName : List Char
  isFoil : Bool
  isSpecial : Bool
  cleanTitle : List Char
deriving DecidableEq

/-- A raw scraped record: each field is the `innerText` of the corresponding
DOM element when that element exists. -/
structure RawListing where
  titleEl : Option (List Char)
  priceEl : Option (List Char)
  setEl : Option (List Char)
deriving DecidableEq

/-- The keyword alternation of the `isSpecial` regular expression
(src/server.js lines 327-329), lowercased; the `/i` flag is modelled by
lowercasing the haystack. -/
def specialKeywords : List (List Char) :=
  [str "serialized", str "prestige", str "hyperspace", str "showcase",
   str "alternate art", str "extended art", str "organized play", str "promo",
   str "(prestige)", str "(showcase)", str "(hyperspace)", str "(serialized)"]

/-- The `$$eval` mapper (src/server.js lines 320-343): trims the scraped
texts, applies the `"N/A"` / empty-string defaults, discards records with an
empty title, and derives `isFoil`, `isSpecial` and `cleanTitle`. -/
def normalize (raw : RawListing) : Option Listing :=
  let title := match raw.titleEl with | some s => trimL s | none => []
  let market := match raw.priceEl with | some s => trimL s | none => str "N/A"
  let setName := match raw.setEl with | some s => trimL s | none => []
  if title.isEmpty then none
  else
    some
      { title := title
        market := market
        setName := setName
        isFoil := containsSub (lowerL title) (str "foil")
        isSpecial :=
          specialKeywords.any fun k =>
            containsSub (lowerL (title ++ ' ' :: setName)) k
        cleanTitle :=
          trimL (removeSub (str "foil") (removeSub (str "(foil)") (lowerL title))) }

/-- One search word is covered by the title word list: some title word
contains it, is contained in it, or agrees with it except possibly for the
final character (src/server.js lines 257-263; `Math.abs` of the JavaScript
length difference is `Nat.dist`). -/
def coveredWord (titleWords : List (List Char)) (w : List Char) : Bool :=
  titleWords.any fun t =>
    containsSub t w || containsSub w t ||
      (decide (Nat.dist t.length w.length ≤ 1) && decide (t.dropLast = w.dropLast))

/-- `fuzzyMatch` (src/server.js lines 253-266).  The threshold
`Math.ceil(searchWords.length * 0.8)` is computed in IEEE-754 doubles; for
every `n` the product `n * 0.8` rounds to a value whose ceiling equals
`⌈4n/5⌉` (for `n` divisible by 5 the rounding error `k·2⁻⁵²` is below half an
ulp of `4k`, so the product is exactly `4n/5`; otherwise the exact value is at
distance ≥ 0.2 from every integer), hence the integer formula `(4n+4)/5`. -/
def fuzzyMatch (searchTerm cardTitle : List Char) : Bool :=
  let searchWords := splitWS (lowerL searchTerm)
  let titleWords := splitWS (lowerL cardTitle)
  let matchedWords := searchWords.filter (coveredWord titleWords)
  decide ((4 * searchWords.length + 4) / 5 ≤ matchedWords.length)

/-- Strip every character that is not in `[A-Za-z0-9_]`:
JavaScript `replace(/\W/g, "")`. -/
def normW (l : List Char) : List Char :=
  l.filter (fun c => c.isAlphanum || c = '_')

/-- The filter predicate of `matchingCards` (src/server.js lines 352-362):
the normalized clean title or the normalized full title contains the
normalized query, or the word-level fuzzy match succeeds on the title or on
the clean title. -/
def isMatchCode (searchTerm : List Char) (card : Listing) : Bool :=
  let ns := normW (lowerL searchTerm)
  containsSub (normW card.cleanTitle) ns ||
    containsSub (normW (lowerL card.title)) ns ||
    fuzzyMatch searchTerm card.title ||
    fuzzyMatch searchTerm card.cleanTitle

/-- `matchingCards` (src/server.js lines 353-362). -/
def matchingCards (searchTerm : List Char) (products : List Listing) : List Listing :=
  products.filter (isMatchCode searchTerm)

/-- Coercion of a parsed price into the comparator operand:
`Number(null)` is `0`, `NaN` propagates. -/
def toNum : JsNum → Option ℚ
  | JsNum.null => some 0
  | JsNum.nan => none
  | JsNum.num q => some q

/-- The sort comparator `(a, b) => parsePrice(a.market) - parsePrice(b.market)`
turned into a strict "a before b" test.  ECMAScript `SortCompare` maps a `NaN`
comparator value to `+0`, i.e. "equal", hence `false` here. -/
def sortLt (a b : Listing) : Bool :=
  match toNum (parsePrice a.market), toNum (parsePrice b.market) with
  | some x, some y => decide (x - y < 0)
  | _, _ => false

/-- Stable insertion of `x` into an already sorted list: `x` passes `y` only
when `y` is strictly before `x`, so equal elements keep their original
relative order, as ECMAScript mandates for `Array.prototype.sort`. -/
def insertLt (lt : Listing → Listing → Bool) (x : Listing) : List Listing → List Listing
  | [] => [x]
  | y :: ys => if lt y x then y :: insertLt lt x ys else x :: y :: ys

/-- Stable sort; for a consistent comparator this is the unique result
ECMAScript specifies for `Array.prototype.sort`. -/
def insSort (lt : Listing → Listing → Bool) : List Listing → List Listing
  | [] => []
  | x :: xs => insertLt lt x (insSort lt xs)

/-- `parsePrice(c.market) !== null` (`NaN` is not `null`, so it passes). -/
def notNullPrice (c : Listing) : Bool :=
  decide (parsePrice c.market ≠ JsNum.null)

/-- The "main set, priced" filter of `prioritizeMainSet`. -/
def mainPred (c : Listing) : Bool :=
  !c.isSpecial && notNullPrice c

/-- `prioritizeMainSet` (src/server.js lines 372-382): cheapest non-special
priced listing, else cheapest priced listing, else the first listing, and
`null` on an empty subset (`sorted[0] || cards[0]` falls back to `cards[0]`
exactly when the priced filter is empty, since listing objects are truthy). -/
def prioritizeMainSet (cards : List Listing) : Option Listing :=
  if cards.isEmpty then none
  else
    let mainSet := cards.filter mainPred
    if mainSet.isEmpty then
      match (insSort sortLt (cards.filter notNullPrice)).head? with
      | some x => some x
      | none => cards.head?
    else (insSort sortLt mainSet).head?

/-- The three-way selection text of src/server.js lines 388-394 (everything
after the `"{user}, "` prefix); the unreachable both-`null` case leaves the
message at the bare prefix, exactly as the JavaScript `if`/`else if` chain. -/
def selectionDescr (bnf bf : Option Listing) : List Char :=
  match bnf, bf with
  | some nf, some f =>
    str "Card: " ++ nf.cleanTitle ++ str " (" ++ nf.setName ++ str ") | Regular: " ++
      nf.market ++ str " | Foil: " ++ f.market
  | some nf, none =>
    str "Card: " ++ nf.title ++ str " (" ++ nf.setName ++ str ") | Market: " ++
      nf.market ++ str " | Foil: Not found"
  | none, some f =>
    str "Card: " ++ f.cleanTitle ++ str " (" ++ f.setName ++ str ") | Regular: Not found | Foil: " ++
      f.market
  | none, none => []

/-- The matched-branch message before truncation (src/server.js lines
369-394): partition the matching cards by `isFoil`, pick the best of each
side, and render. -/
def selectionMessage (searchTerm chatUser : List Char) (matching : List Listing) : List Char :=
  let bnf := prioritizeMainSet (matching.filter fun c => !c.isFoil)
  let bf := prioritizeMainSet (matching.filter fun c => c.isFoil)
  chatUser ++ str ", " ++ selectionDescr bnf bf

/-- The final length guard (src/server.js line 396). -/
def truncate390 (m : List Char) : List Char :=
  if 390 < m.length then m.take 387 ++ str "..." else m

/-- The pure resolution pipeline of `fetchCardPrice` (src/server.js lines
348-397) on already-normalized listings: the "no product cards found" and
"no exact match" branches return directly (without truncation); only the
matched branch passes through the length guard. -/
def resolveL (searchTerm chatUser : List Char) (products : List Listing) : List Char :=
  match products with
  | [] => chatUser ++ str ", no product cards found for \"" ++ searchTerm ++ str "\""
  | p0 :: _ =>
    if (matchingCards searchTerm products).isEmpty then
      chatUser ++ str ", no exact match for \"" ++ searchTerm ++ str "\". Found: " ++
        p0.title ++ str " (" ++ p0.setName ++ str ") | Price: " ++ p0.market
    else truncate390 (selectionMessage searchTerm chatUser (matchingCards searchTerm products))

/-- String-level entry point `resolve(query, listings)` of the spec. -/
def resolve (searchTerm chatUser : String) (products : List Listing) : String :=
  String.mk (resolveL searchTerm.data chatUser.data products)

/-! ### The cached variant (first document of src/server.js, lines 47-166)

Claim C2 cites the variant whose `fetchCardPrice` consults a module-level
`Map` before scraping.  Its `$$eval` mapper stores a precomputed `isMatch`
flag on each product, so listings of that variant carry that flag. -/

/-- A product record of the cached variant (src/server.js lines 115-122). -/
structure Listing1 where
  title : List Char
  market : List Char
  setName : List Char
  isFoil : Bool
  isMatch : Bool
  cleanTitle : List Char
deriving DecidableEq

/-- The pure message pipeline of the cached variant (src/server.js lines
128-153): candidates are the precomputed exact matches, else the first
product; `find` picks the first non-foil and the first foil candidate. -/
def resolve1 (searchTerm chatUser : List Char) (products : List Listing1) : List Char :=
  match products with
  | [] => chatUser ++ str ", no results found for \"" ++ searchTerm ++ str "\""
  | p0 :: _ =>
    let exact := products.filter (fun p => p.isMatch)
    let candidates := if exact.isEmpty then [p0] else exact
    let nonFoil := candidates.find? (fun c => !c.isFoil)
    let foil := candidates.find? (fun c => c.isFoil)
    truncate390 (chatUser ++ str ", " ++
      (match nonFoil, foil with
       | some nf, some f => nf.cleanTitle ++ str " | Regular: " ++ nf.market ++ str " | Foil: " ++ f.market
       | some nf, none => nf.title ++ str " | Price: " ++ nf.market
       | none, some f => f.cleanTitle ++ str " | Foil: " ++ f.market
       | none, none => p0.title ++ str " | Price: " ++ p0.market))

/-- `CACHE_TTL` of the cached variant (src/server.js line 49). -/
def CACHE_TTL : Nat := 60000

/-- A cache entry `{ result, timestamp }` (src/server.js lines 130, 156). -/
structure CEntry where
  result : List Char
  timestamp : Nat
deriving DecidableEq

/-- `Map.prototype.get` on the association-list model of the cache. -/
def lookupA (key : List Char) : List (List Char × CEntry) → Option CEntry
  | [] => none
  | (k, e) :: rest => if k = key then some e else lookupA key rest

/-- `Map.prototype.set` on the association-list model of the cache. -/
def setA (key : List Char) (e : CEntry) : List (List Char × CEntry) → List (List Char × CEntry)
  | [] => [(key, e)]
  | (k, e0) :: rest => if k = key then (k, e) :: rest else (k, e0) :: setA key e rest

/-- `searchTerm.toLowerCase().trim()` (src/server.js line 67). -/
def cacheKey (searchTerm : List Char) : List Char :=
  trimL (lowerL searchTerm)

/-- `fetchCardPrice` of the cached variant (src/server.js lines 65-157) with
the scrape result supplied as `products`: a fresh cache hit returns
`cached.result.replace("Streamer", chatUser)` without fetching; otherwise the
pipeline runs and its message is cached under the normalized key with the
current time.  The returned `Bool` records whether the underlying fetch and
pipeline ran. -/
def fetchCardPrice1 (products : List Listing1) (searchTerm chatUser : List Char)
    (now : Nat) (cache : List (List Char × CEntry)) :
    List Char × List (List Char × CEntry) × Bool :=
  let key := cacheKey searchTerm
  let hit := match lookupA key cache with
    | some e => if now - e.timestamp < CACHE_TTL then some e else none
    | none => none
  match hit with
  | some e => (jsReplaceFirst (str "Streamer") chatUser e.result, cache, false)
  | none =>
    let msg := resolve1 searchTerm chatUser products
    (msg, setA key ⟨msg, now⟩ cache, true)

/-! ### Heap model of the selection phase (for claim C9)

The JavaScript pipeline manipulates arrays through references, and
`Array.prototype.sort` mutates the array it is called on.  To settle the
no-mutation half of C9 honestly, the pipeline is replayed over an explicit
heap of arrays: the input `products` array lives at index 0, `filter`
allocates fresh arrays, and `sort` writes in place.  Listing objects are
modelled as values because the pipeline never assigns to their fields. -/

/-- A heap of JavaScript arrays of listings, addressed by allocation index. -/
structure JsHeap where
  arrays : List (List Listing)
deriving DecidableEq

/-- Dereference an array. -/
def JsHeap.read (h : JsHeap) (i : Nat) : List Listing :=
  h.arrays.getD i []

/-- Allocate a fresh array, returning its reference. -/
def JsHeap.alloc (h : JsHeap) (l : List Listing) : Nat × JsHeap :=
  (h.arrays.length, ⟨h.arrays ++ [l]⟩)

/-- Overwrite an existing array in place. -/
def JsHeap.write (h : JsHeap) (i : Nat) (l : List Listing) : JsHeap :=
  ⟨h.arrays.set i l⟩

/-- `prioritizeMainSet` replayed on the heap: both `filter` calls allocate
(the fresh reference is the current heap size, i.e. `(alloc …).1`), both
`sort` calls mutate the freshly filtered array, and every access to the
argument array goes through its reference `cid`. -/
def prioritizeMainSetH (cid : Nat) (h : JsHeap) : Option Listing × JsHeap :=
  if (h.read cid).isEmpty then (none, h)
  else
    let mid := h.arrays.length
    let h1 := (h.alloc ((h.read cid).filter mainPred)).2
    if (h1.read mid).isEmpty then
      let tid := h1.arrays.length
      let h2 := (h1.alloc ((h1.read cid).filter notNullPrice)).2
      let h3 := h2.write tid (insSort sortLt (h2.read tid))
      (match (h3.read tid).head? with
       | some x => some x
       | none => (h3.read cid).head?, h3)
    else
      let h2 := h1.write mid (insSort sortLt (h1.read mid))
      ((h2.read mid).head?, h2)

/-- The matched-phase of `fetchCardPrice` replayed on the heap, with the
`products` array at reference 0. -/
def resolveLH (searchTerm chatUser : List Char) (h : JsHeap) : List Char × JsHeap :=
  if (h.read 0).isEmpty then
    (chatUser ++ str ", no product cards found for \"" ++ searchTerm ++ str "\"", h)
  else
    let mid := h.arrays.length
    let h1 := (h.alloc (matchingCards searchTerm (h.read 0))).2
    if (h1.read mid).isEmpty then
      let fb := (h1.read 0).headD ⟨[], [], [], false, false, []⟩
      (chatUser ++ str ", no exact match for \"" ++ searchTerm ++ str "\". Found: " ++
        fb.title ++ str " (" ++ fb.setName ++ str ") | Price: " ++ fb.market, h1)
    else
      let nfid := h1.arrays.length
      let h2 := (h1.alloc ((h1.read mid).filter fun c => !c.isFoil)).2
      let fid := h2.arrays.length
      let h3 := (h2.alloc ((h2.read mid).filter fun c => c.isFoil)).2
      let r4 := prioritizeMainSetH nfid h3
      let r5 := prioritizeMainSetH fid r4.2
      (truncate390 (chatUser ++ str ", " ++ selectionDescr r4.1 r5.1), r5.2)

/-! ### Specification-side definitions

These definitions follow the wording of the specification and of the claims;
the theorems below relate them to the code-derived definitions above. -/

/-- A digit-and-dot string begins with a numeric token (a digit, or a dot
followed by a digit); exactly these strings survive `parseFloat`. -/
def beginsNumeric : List Char → Bool
  | [] => false
  | c :: rest =>
    c.isDigit || (c = '.' && (match rest with | d :: _ => d.isDigit | [] => false))

/-- The price of a listing as a rational, for stating order properties;
defined (as 0) also on unpriced listings, but only ever used on listings
whose parsed price is an actual number. -/
def priceVal (c : Listing) : ℚ :=
  match parsePrice c.market with
  | JsNum.num q => q
  | _ => 0

/-- Claim-side coverage of one query word by the title word list, written
with an existential as in the claim text. -/
def coveredStated (titleWords : List (List Char)) (w : List Char) : Prop :=
  ∃ t ∈ titleWords,
    containsSub t w = true ∨ containsSub w t = true ∨
      (Nat.dist t.length w.length ≤ 1 ∧ t.dropLast = w.dropLast)

instance (titleWords : List (List Char)) (w : List Char) :
    Decidable (coveredStated titleWords w) := by
  unfold coveredStated
  infer_instance

/-- Claim-side word-fuzzy tier: at least `⌈0.8 · wordCount⌉` of the
whitespace-separated lowercase query words are covered. -/
def wordTierStated (q title : List Char) : Prop :=
  let sw := splitWS (lowerL q)
  Nat.ceil ((sw.length : ℚ) * (4 / 5)) ≤
    (sw.filter (fun w => decide (coveredStated (splitWS (lowerL title)) w))).length

/-- Claim C4 as stated: the substring tier accepts containment in either
direction between the normalized query and the normalized title or clean
title, and the word-fuzzy tier is checked on both representations. -/
def isMatchStated (q : List Char) (card : Listing) : Prop :=
  (containsSub (normW (lowerL card.title)) (normW (lowerL q)) = true ∨
      containsSub (normW (lowerL q)) (normW (lowerL card.title)) = true ∨
      containsSub (normW card.cleanTitle) (normW (lowerL q)) = true ∨
      containsSub (normW (lowerL q)) (normW card.cleanTitle) = true) ∨
    wordTierStated q card.title ∨ wordTierStated q card.cleanTitle

/-! ### Arithmetic and parser lemmas -/

/-- The fuzzy threshold: the rational ceiling `⌈n · 4/5⌉` agrees with the
integer formula `(4n + 4) / 5` used in the code-side definition. -/
theorem ceil_mul_four_fifths (n : ℕ) :
    Nat.ceil ((n : ℚ) * (4 / 5)) = (4 * n + 4) / 5 := by
  apply le_antisymm
  · rw [Nat.ceil_le]
    have h1 : (4 * n : ℕ) ≤ 5 * ((4 * n + 4) / 5) := by omega
    have h2 : ((4 * n : ℕ) : ℚ) ≤ ((5 * ((4 * n + 4) / 5) : ℕ) : ℚ) := by
      exact_mod_cast h1
    push_cast at h2
    nlinarith
  · rcases Nat.eq_zero_or_pos ((4 * n + 4) / 5) with h | h
    · simp [h]
    · have hk : (4 * n + 4) / 5 - 1 < Nat.ceil ((n : ℚ) * (4 / 5)) := by
        rw [Nat.lt_ceil]
        have h1 : 5 * ((4 * n + 4) / 5 - 1) < 4 * n := by omega
        have h2 : ((5 * ((4 * n + 4) / 5 - 1) : ℕ) : ℚ) < ((4 * n : ℕ) : ℚ) := by
          exact_mod_cast h1
        push_cast at h2
        nlinarith
      omega

/-- `parseFloat` on a stripped string never yields `null`, and yields `NaN`
exactly when the string does not begin with a numeric token. -/
theorem parseFloatDD_characterization (l : List Char) :
    parseFloatDD l ≠ JsNum.null ∧
      (parseFloatDD l = JsNum.nan ↔ beginsNumeric l = false) := by
  cases l with
  | nil => simp [parseFloatDD, beginsNumeric]
  | cons c rest =>
    by_cases hd : c.isDigit
    · simp only [parseFloatDD, List.takeWhile_cons, List.dropWhile_cons, hd, if_pos,
        beginsNumeric, Bool.true_or]
      constructor
      · split
        · split
          · simp_all [List.isEmpty]
          · simp
        · simp [List.isEmpty]
      · constructor
        · intro hnan
          exfalso
          revert hnan
          split
          · split
            · simp_all [List.isEmpty]
            · simp
          · simp [List.isEmpty]
        · intro hfalse
          simp at hfalse
    · by_cases hdot : c = '.'
      · subst hdot
        simp only [parseFloatDD, List.takeWhile_cons, List.dropWhile_cons, hd,
          Bool.false_eq_true, if_false, beginsNumeric, Bool.false_or]
        cases rest with
        | nil => simp [List.isEmpty]
        | cons d r2 =>
          by_cases hd2 : d.isDigit
          · simp [List.takeWhile_cons, hd2, List.isEmpty]
          · simp [List.takeWhile_cons, hd2, List.isEmpty]
      · simp only [parseFloatDD, List.takeWhile_cons, List.dropWhile_cons, hd,
          Bool.false_eq_true, if_false, beginsNumeric]
        split
        · rename_i r2 heq
          rw [List.cons.injEq] at heq
          exact absurd heq.1 hdot
        · simp [List.isEmpty, hd, hdot]

/-- C3 counterexample: on `"Out of stock"` the implementation returns `NaN`
(JavaScript `parseFloat("")`), not `null` as the claim asserts. -/
theorem claim3_counterexample :
    parsePrice (str "Out of stock") = JsNum.nan ∧ JsNum.nan ≠ JsNum.null := by
  constructor
  · decide
  · intro h
    cases h

/-- C3 (amended): `parsePrice` returns `null` exactly for the empty string
and the sentinel `"N/A"`; on every other input it returns `NaN` — never
`null` — exactly when the stripped remainder does not begin with a numeric
token (it never throws: it is a total function). -/
theorem claim3_amended (s : List Char) :
    (parsePrice s = JsNum.null ↔ (s = [] ∨ s = str "N/A")) ∧
      (parsePrice s = JsNum.nan ↔
        (¬(s = [] ∨ s = str "N/A") ∧ beginsNumeric (stripPrice s) = false)) := by
  unfold parsePrice
  by_cases h : s.isEmpty || s = str "N/A"
  · rw [if_pos h]
    simp only [List.isEmpty_iff, Bool.or_eq_true, decide_eq_true_eq] at h
    constructor
    · simp [h]
    · constructor
      · intro hn
        cases hn
      · intro ⟨hne, _⟩
        exact absurd h hne
  · rw [if_neg h]
    simp only [List.isEmpty_iff, Bool.or_eq_true, decide_eq_true_eq, not_or] at h
    have hch := parseFloatDD_characterization (stripPrice s)
    constructor
    · constructor
      · intro hnull
        exact absurd hnull hch.1
      · intro hor
        exact absurd hor (by simp [h.1, h.2])
    · rw [hch.2]
      simp [h.1, h.2]

/-! ### Claim C4: the two-tier matcher -/

/-- Word coverage computed by the code agrees with the claim-side
existential formulation. -/
theorem coveredWord_iff (tw : List (List Char)) (w : List Char) :
    coveredWord tw w = true ↔ coveredStated tw w := by
  simp [coveredWord, coveredStated, List.any_eq_true, Bool.or_eq_true, Bool.and_eq_true,
    decide_eq_true_eq, or_assoc]

/-- Boolean form of `coveredWord_iff`. -/
theorem coveredWord_eq_decide (tw : List (List Char)) (w : List Char) :
    coveredWord tw w = decide (coveredStated tw w) := by
  by_cases hc : coveredStated tw w
  · simp [hc, (coveredWord_iff tw w).mpr hc]
  · have hf : coveredWord tw w = false := by
      rw [← Bool.not_eq_true]
      exact fun hh => hc ((coveredWord_iff tw w).mp hh)
    simp [hc, hf]

/-- The code-side fuzzy match agrees with the claim-side word tier: the
coverage predicates coincide and the integer threshold `(4n+4)/5` is the
rational ceiling `⌈n·0.8⌉`. -/
theorem fuzzyMatch_iff (s t : List Char) :
    fuzzyMatch s t = true ↔ wordTierStated s t := by
  unfold fuzzyMatch wordTierStated
  simp only [decide_eq_true_eq, ceil_mul_four_fifths]
  have hfil :
      (splitWS (lowerL s)).filter (coveredWord (splitWS (lowerL t))) =
        (splitWS (lowerL s)).filter
          (fun w => decide (coveredStated (splitWS (lowerL t)) w)) :=
    List.filter_congr (fun w _ => coveredWord_eq_decide _ w)
  rw [hfil]

/-- C4 (amended): the matcher accepts exactly when the normalized clean title
or the normalized full title contains the normalized query (one direction
only — the code never tests whether the query contains the title), or the
word-fuzzy tier (as stated in the claim, with the `⌈0.8·n⌉` threshold)
succeeds on the title or on the clean title. -/
theorem claim4_amended (q : List Char) (card : Listing) :
    isMatchCode q card = true ↔
      (containsSub (normW card.cleanTitle) (normW (lowerL q)) = true ∨
        containsSub (normW (lowerL card.title)) (normW (lowerL q)) = true ∨
        wordTierStated q card.title ∨ wordTierStated q card.cleanTitle) := by
  unfold isMatchCode
  simp only [Bool.or_eq_true, fuzzyMatch_iff, or_assoc]

/-- A listing on which the claim and the code disagree: its title is a
substring of the query, but not conversely. -/
def habCard : Listing :=
  ⟨str "hab", str "N/A", [], false, false, str "hab"⟩

/-- C4 counterexample: for the query `"alpha beta"` and the listing titled
`"hab"`, the claim's substring tier succeeds (the normalized query
`"alphabeta"` contains the normalized title `"hab"`), but the code rejects
the listing: its substring tier only tests containment of the query in the
title, and the word tier fails.  So `isMatch` is not equivalent to the
claimed two-tier disjunction. -/
theorem claim4_counterexample :
    isMatchCode (str "alpha beta") habCard = false ∧
      isMatchStated (str "alpha beta") habCard := by
  constructor
  · decide
  · exact Or.inl (Or.inr (Or.inl (by decide)))

/-! ### Claim C5: the variant selector -/

/-- Membership is preserved by stable insertion. -/
theorem mem_insertLt (lt : Listing → Listing → Bool) (x a : Listing) (l : List Listing) :
    a ∈ insertLt lt x l ↔ a = x ∨ a ∈ l := by
  induction l with
  | nil => simp [insertLt]
  | cons y ys ih =>
    unfold insertLt
    split
    · simp only [List.mem_cons, ih]
      tauto
    · simp [List.mem_cons]

/-- Membership is preserved by the stable sort. -/
theorem mem_insSort (lt : Listing → Listing → Bool) (a : Listing) (l : List Listing) :
    a ∈ insSort lt l ↔ a ∈ l := by
  induction l with
  | nil => simp [insSort]
  | cons x xs ih => simp [insSort, mem_insertLt, ih]

/-- When a listing's price is not `NaN`, the comparator operand is exactly
`priceVal` (an unpriced listing coerces to `0`, as `Number(null)` does). -/
theorem toNum_of_ne_nan (c : Listing) (h : parsePrice c.market ≠ JsNum.nan) :
    toNum (parsePrice c.market) = some (priceVal c) := by
  cases hp : parsePrice c.market with
  | null => simp [toNum, priceVal, hp]
  | nan => exact absurd hp h
  | num q => simp [toNum, priceVal, hp]

/-- On `NaN`-free listings the comparator is the strict order on `priceVal`. -/
theorem sortLt_iff (a b : Listing) (ha : parsePrice a.market ≠ JsNum.nan)
    (hb : parsePrice b.market ≠ JsNum.nan) :
    sortLt a b = true ↔ priceVal a < priceVal b := by
  unfold sortLt
  rw [toNum_of_ne_nan a ha, toNum_of_ne_nan b hb]
  simp [sub_neg]

/-- Head of the stable insertion sort on a `NaN`-free list: it is the first
element of the original list attaining the minimal price — everything before
it in the original order is strictly more expensive, and nothing anywhere is
cheaper. -/
theorem insSort_head (l : List Listing) (hl : l ≠ [])
    (hnn : ∀ c ∈ l, parsePrice c.market ≠ JsNum.nan) :
    ∃ x pre post, (insSort sortLt l).head? = some x ∧ l = pre ++ x :: post ∧
      (∀ y ∈ pre, priceVal x < priceVal y) ∧ (∀ y ∈ l, priceVal x ≤ priceVal y) := by
  induction l with
  | nil => exact absurd rfl hl
  | cons a as ih =>
    cases as with
    | nil =>
      refine ⟨a, [], [], by simp [insSort, insertLt], by simp, by simp, ?_⟩
      intro y hy
      rcases List.mem_singleton.mp hy with rfl
      exact le_refl _
    | cons b bs =>
      obtain ⟨m, pre, post, hhead, hdec, hpre, hmin⟩ :=
        ih (by simp) (fun c hc => hnn c (List.mem_cons_of_mem _ hc))
      obtain ⟨tl, htl⟩ : ∃ tl, insSort sortLt (b :: bs) = m :: tl := by
        cases hs : insSort sortLt (b :: bs) with
        | nil => rw [hs] at hhead; cases hhead
        | cons y ys =>
          rw [hs] at hhead
          simp only [List.head?_cons, Option.some.injEq] at hhead
          exact ⟨ys, by rw [hhead]⟩
      have hm_mem : m ∈ b :: bs := by rw [hdec]; simp
      have hm_nan : parsePrice m.market ≠ JsNum.nan := hnn m (List.mem_cons_of_mem _ hm_mem)
      have ha_nan : parsePrice a.market ≠ JsNum.nan := hnn a (List.mem_cons_self a (b :: bs))
      by_cases hlt : sortLt m a = true
      · have hmlt : priceVal m < priceVal a := (sortLt_iff m a hm_nan ha_nan).mp hlt
        refine ⟨m, a :: pre, post, ?_, ?_, ?_, ?_⟩
        · show (insSort sortLt (a :: b :: bs)).head? = some m
          unfold insSort
          rw [htl]
          simp [insertLt, hlt]
        · rw [List.cons_append, ← hdec]
        · intro y hy
          rcases List.mem_cons.mp hy with rfl | hy'
          · exact hmlt
          · exact hpre y hy'
        · intro y hy
          rcases List.mem_cons.mp hy with rfl | hy'
          · exact le_of_lt hmlt
          · exact hmin y hy'
      · have hge : priceVal a ≤ priceVal m := by
          by_contra hcon
          push_neg at hcon
          exact hlt ((sortLt_iff m a hm_nan ha_nan).mpr hcon)
        refine ⟨a, [], b :: bs, ?_, by simp, by simp, ?_⟩
        · unfold insSort
          rw [htl]
          simp [insertLt, hlt]
        · intro y hy
          rcases List.mem_cons.mp hy with rfl | hy'
          · exact le_refl _
          · exact le_trans hge (hmin y hy')

/-- `prioritizeMainSet` returns `null` exactly on the empty subset
(no `NaN` hypothesis needed: only the order, not existence, depends on the
comparator). -/
theorem prioritizeMainSet_eq_none_iff (cards : List Listing) :
    prioritizeMainSet cards = none ↔ cards = [] := by
  constructor
  · intro h
    by_contra hne
    unfold prioritizeMainSet at h
    rw [if_neg (by simpa [List.isEmpty_iff] using hne)] at h
    by_cases hm : (cards.filter mainPred).isEmpty
    · rw [if_pos hm] at h
      revert h
      split
      · intro h; cases h
      · cases hc : cards.head? with
        | none => exact fun _ => hne (by rwa [List.head?_eq_none_iff] at hc)
        | some c => intro h; cases h
    · rw [if_neg hm] at h
      have hlen : (insSort sortLt (cards.filter mainPred)).length ≠ 0 := by
        have : ∀ lt l, (insSort lt l : List Listing).length = l.length := by
          intro lt l
          induction l with
          | nil => rfl
          | cons x xs ih =>
            have hins : ∀ s, (insertLt lt x s : List Listing).length = s.length + 1 := by
              intro s
              induction s with
              | nil => rfl
              | cons y ys ihs =>
                unfold insertLt
                split
                · simp [ihs]
                · simp
            simp [insSort, hins, ih]
        rw [this]
        simp only [List.isEmpty_iff] at hm
        exact fun h0 => hm (List.length_eq_zero.mp h0)
      cases hs : insSort sortLt (cards.filter mainPred) with
      | nil => exact hlen (by rw [hs]; rfl)
      | cons y ys => rw [hs] at h; cases h
  · intro h
    subst h
    rfl

/-- A non-`null` result of `prioritizeMainSet` is an element of its input. -/
theorem prioritizeMainSet_mem (cards : List Listing) (x : Listing)
    (h : prioritizeMainSet cards = some x) : x ∈ cards := by
  unfold prioritizeMainSet at h
  by_cases hc : cards.isEmpty
  · rw [if_pos hc] at h; cases h
  · rw [if_neg hc] at h
    by_cases hm : (cards.filter mainPred).isEmpty
    · rw [if_pos hm] at h
      revert h
      split
      · rename_i y hy
        intro h
        rw [Option.some.injEq] at h
        subst h
        have : y ∈ insSort sortLt (cards.filter notNullPrice) := by
          cases hs : insSort sortLt (cards.filter notNullPrice) with
          | nil => rw [hs] at hy; cases hy
          | cons z zs =>
            rw [hs] at hy
            simp only [List.head?_cons, Option.some.injEq] at hy
            rw [← hy]
            simp
        exact List.mem_of_mem_filter ((mem_insSort _ _ _).mp this)
      · intro h
        exact List.mem_of_mem_head? h
    · rw [if_neg hm] at h
      have : x ∈ insSort sortLt (cards.filter mainPred) := List.mem_of_mem_head? h
      exact List.mem_of_mem_filter ((mem_insSort _ _ _).mp this)

/-- C5: on listings whose prices parse to `null` or to a number (a price
parsing to `NaN` makes the JavaScript sort order implementation-defined, so
it is excluded), `prioritizeMainSet` returns the cheapest non-special priced
listing — the first such in scan order on ties — else the cheapest priced
listing with the same tie rule, else the first listing, and `null` exactly on
the empty subset. -/
theorem claim5_selector (cards : List Listing)
    (hnn : ∀ c ∈ cards, parsePrice c.market ≠ JsNum.nan) :
    (prioritizeMainSet cards = none ↔ cards = []) ∧
    (cards.filter mainPred ≠ [] →
      ∃ x pre post, prioritizeMainSet cards = some x ∧
        cards.filter mainPred = pre ++ x :: post ∧
        (∀ y ∈ pre, priceVal x < priceVal y) ∧
        (∀ y ∈ cards.filter mainPred, priceVal x ≤ priceVal y)) ∧
    (cards.filter mainPred = [] → cards.filter notNullPrice ≠ [] →
      ∃ x pre post, prioritizeMainSet cards = some x ∧
        cards.filter notNullPrice = pre ++ x :: post ∧
        (∀ y ∈ pre, priceVal x < priceVal y) ∧
        (∀ y ∈ cards.filter notNullPrice, priceVal x ≤ priceVal y)) ∧
    (cards.filter mainPred = [] → cards.filter notNullPrice = [] →
      prioritizeMainSet cards = cards.head?) := by
  refine ⟨prioritizeMainSet_eq_none_iff cards, ?_, ?_, ?_⟩
  · intro hm
    obtain ⟨x, pre, post, hhead, hdec, hpre, hmin⟩ :=
      insSort_head (cards.filter mainPred) hm
        (fun c hc => hnn c (List.mem_of_mem_filter hc))
    refine ⟨x, pre, post, ?_, hdec, hpre, hmin⟩
    unfold prioritizeMainSet
    have hcne : cards ≠ [] := by
      intro h0
      rw [h0] at hm
      exact hm rfl
    rw [if_neg (by simpa [List.isEmpty_iff] using hcne),
      if_neg (by simpa [List.isEmpty_iff] using hm)]
    exact hhead
  · intro hm hp
    obtain ⟨x, pre, post, hhead, hdec, hpre, hmin⟩ :=
      insSort_head (cards.filter notNullPrice) hp
        (fun c hc => hnn c (List.mem_of_mem_filter hc))
    refine ⟨x, pre, post, ?_, hdec, hpre, hmin⟩
    unfold prioritizeMainSet
    have hcne : cards ≠ [] := by
      intro h0
      rw [h0] at hp
      exact hp rfl
    rw [if_neg (by simpa [List.isEmpty_iff] using hcne),
      if_pos (by simpa [List.isEmpty_iff] using hm)]
    rw [hhead]
  · intro hm hp
    unfold prioritizeMainSet
    by_cases hc : cards.isEmpty
    · rw [if_pos hc]
      rw [List.isEmpty_iff] at hc
      rw [hc]
      rfl
    · rw [if_neg hc, if_pos (by simpa [List.isEmpty_iff] using hm), hp]
      rfl

/-- Two concrete priced main-set listings, the cheaper one second. -/
def cardNine : Listing := ⟨str "A", str "$9.00", [], false, false, str "a"⟩

/-- The cheaper listing used in the C5 witness. -/
def cardFive : Listing := ⟨str "B", str "$5.00", [], false, false, str "b"⟩

/-- Witness for C5: on a concrete two-element subset the selector picks the
cheaper `$5.00` listing. -/
theorem claim5_witness :
    ∃ x pre post, prioritizeMainSet [cardNine, cardFive] = some x ∧
      [cardNine, cardFive].filter mainPred = pre ++ x :: post ∧
      (∀ y ∈ pre, priceVal x < priceVal y) ∧
      (∀ y ∈ [cardNine, cardFive].filter mainPred, priceVal x ≤ priceVal y) :=
  (claim5_selector [cardNine, cardFive] (by decide)).2.1 (by decide)

/-! ### Claim C10: exhaustiveness of the three-way selection -/

/-- C10: `prioritizeMainSet` is `null` only on an empty subset and otherwise
returns a member of its input, so for a non-empty candidate set at least one
of `bestNonFoil` / `bestFoil` exists, each comes from the candidate set with
the right foil flag, and the composed message always carries a card
description after the `"{user}, "` prefix built from candidate-set data. -/
theorem claim10_exhaustive (q u : List Char) (products : List Listing) :
    (∀ cs : List Listing, prioritizeMainSet cs = none ↔ cs = []) ∧
    (∀ cs : List Listing, ∀ x, prioritizeMainSet cs = some x → x ∈ cs) ∧
    (matchingCards q products ≠ [] →
      (prioritizeMainSet ((matchingCards q products).filter fun c => !c.isFoil) ≠ none ∨
        prioritizeMainSet ((matchingCards q products).filter fun c => c.isFoil) ≠ none) ∧
      (∀ x,
        prioritizeMainSet ((matchingCards q products).filter fun c => !c.isFoil) = some x →
          x ∈ matchingCards q products ∧ x.isFoil = false) ∧
      (∀ x,
        prioritizeMainSet ((matchingCards q products).filter fun c => c.isFoil) = some x →
          x ∈ matchingCards q products ∧ x.isFoil = true) ∧
      ∃ d, selectionMessage q u (matchingCards q products) =
        u ++ str ", " ++ (str "Card: " ++ d)) := by
  refine ⟨prioritizeMainSet_eq_none_iff, fun cs x => prioritizeMainSet_mem cs x, ?_⟩
  intro hm
  have hboth :
      prioritizeMainSet ((matchingCards q products).filter fun c => !c.isFoil) ≠ none ∨
        prioritizeMainSet ((matchingCards q products).filter fun c => c.isFoil) ≠ none := by
    obtain ⟨m, rest, hrest⟩ := List.exists_cons_of_ne_nil hm
    by_cases hf : m.isFoil
    · refine Or.inr ?_
      rw [Ne, prioritizeMainSet_eq_none_iff]
      intro h0
      have : m ∈ (matchingCards q products).filter fun c => c.isFoil := by
        rw [List.mem_filter]
        exact ⟨by rw [hrest]; simp, hf⟩
      rw [h0] at this
      cases this
    · refine Or.inl ?_
      rw [Ne, prioritizeMainSet_eq_none_iff]
      intro h0
      have : m ∈ (matchingCards q products).filter fun c => !c.isFoil := by
        rw [List.mem_filter]
        simp [hf, hrest]
      rw [h0] at this
      cases this
  refine ⟨hboth, ?_, ?_, ?_⟩
  · intro x hx
    have hmem := prioritizeMainSet_mem _ x hx
    rw [List.mem_filter] at hmem
    exact ⟨hmem.1, by simpa using hmem.2⟩
  · intro x hx
    have hmem := prioritizeMainSet_mem _ x hx
    rw [List.mem_filter] at hmem
    exact ⟨hmem.1, hmem.2⟩
  · unfold selectionMessage
    rcases hbnf : prioritizeMainSet ((matchingCards q products).filter fun c => !c.isFoil)
      with _ | nf <;>
      rcases hbf : prioritizeMainSet ((matchingCards q products).filter fun c => c.isFoil)
        with _ | f
    · rw [hbnf, hbf] at hboth
      rcases hboth with h | h <;> exact absurd rfl h
    · exact ⟨f.cleanTitle ++ str " (" ++ f.setName ++ str ") | Regular: Not found | Foil: " ++
        f.market, by simp [selectionDescr, List.append_assoc]⟩
    · exact ⟨nf.title ++ str " (" ++ nf.setName ++ str ") | Market: " ++ nf.market ++
        str " | Foil: Not found", by simp [selectionDescr, List.append_assoc]⟩
    · exact ⟨nf.cleanTitle ++ str " (" ++ nf.setName ++ str ") | Regular: " ++ nf.market ++
        str " | Foil: " ++ f.market, by simp [selectionDescr, List.append_assoc]⟩

/-- Witness for C10 on the concrete Pikachu candidate set. -/
theorem claim10_witness :
    (prioritizeMainSet ((matchingCards (str "pikachu vmax")
        [⟨str "Pikachu VMAX", str "$45.00", str "Vivid Voltage", false, false,
            str "pikachu vmax"⟩]).filter fun c => !c.isFoil) ≠ none ∨
      prioritizeMainSet ((matchingCards (str "pikachu vmax")
        [⟨str "Pikachu VMAX", str "$45.00", str "Vivid Voltage", false, false,
            str "pikachu vmax"⟩]).filter fun c => c.isFoil) ≠ none) ∧
    ∃ d, selectionMessage (str "pikachu vmax") (str "Streamer")
        (matchingCards (str "pikachu vmax")
          [⟨str "Pikachu VMAX", str "$45.00", str "Vivid Voltage", false, false,
              str "pikachu vmax"⟩]) =
      str "Streamer" ++ str ", " ++ (str "Card: " ++ d) := by
  have h := claim10_exhaustive (str "pikachu vmax") (str "Streamer")
    [⟨str "Pikachu VMAX", str "$45.00", str "Vivid Voltage", false, false, str "pikachu vmax"⟩]
  exact ⟨(h.2.2 (by decide)).1, (h.2.2 (by decide)).2.2.2⟩

/-! ### Claim C1: the 390-character contract -/

/-- The length guard caps its output at 390 characters. -/
theorem length_truncate390_le (m : List Char) : (truncate390 m).length ≤ 390 := by
  unfold truncate390
  split
  · rename_i h
    simp [List.length_take, str]
  · rename_i h
    omega

/-- The length guard never empties a non-empty message. -/
theorem truncate390_ne_nil (m : List Char) (hm : m ≠ []) : truncate390 m ≠ [] := by
  unfold truncate390
  split
  · intro h0
    have := congrArg List.length h0
    simp [str] at this
  · exact hm

set_option maxRecDepth 40000 in
/-- C1 counterexample: the "no product cards found" path performs no
truncation, so a 400-character query yields a 439-character reply — the
claim's bound of 390 characters on every path is violated. -/
theorem claim1_counterexample :
    (resolveL (List.replicate 400 'a') (str "Streamer") []).length = 439 ∧
      390 < (resolveL (List.replicate 400 'a') (str "Streamer") []).length := by
  constructor <;> decide

/-- C1 (amended): every reply of the pipeline is non-empty, but only the
matched-selection path is subject to the length guard: there the reply is at
most 390 characters, and whenever the composed selection message exceeds 390
characters the reply is its first 387 characters followed by `"..."`, of
length exactly 390.  The no-products, no-exact-match (and upstream error)
paths return their composition untruncated and may exceed 390 characters. -/
theorem claim1_amended (q u : List Char) (products : List Listing) :
    resolveL q u products ≠ [] ∧
    (matchingCards q products ≠ [] →
      resolveL q u products =
        truncate390 (selectionMessage q u (matchingCards q products)) ∧
      (resolveL q u products).length ≤ 390 ∧
      (390 < (selectionMessage q u (matchingCards q products)).length →
        resolveL q u products =
          (selectionMessage q u (matchingCards q products)).take 387 ++ str "..." ∧
        (resolveL q u products).length = 390)) := by
  have hsel_ne : ∀ matching, selectionMessage q u matching ≠ [] := by
    intro matching h0
    have := congrArg List.length h0
    simp [selectionMessage, str] at this
  constructor
  · cases products with
    | nil =>
      intro h0
      have := congrArg List.length h0
      simp [resolveL, str] at this
    | cons p0 rest =>
      simp only [resolveL]
      split
      · intro h0
        have := congrArg List.length h0
        simp [str] at this
      · exact truncate390_ne_nil _ (hsel_ne _)
  · intro hm
    have hprod : products ≠ [] := by
      intro h0
      rw [h0] at hm
      exact hm rfl
    obtain ⟨p0, rest, rfl⟩ := List.exists_cons_of_ne_nil hprod
    have hresolve : resolveL q u (p0 :: rest) =
        truncate390 (selectionMessage q u (matchingCards q (p0 :: rest))) := by
      simp only [resolveL]
      rw [if_neg (by simpa [List.isEmpty_iff] using hm)]
    refine ⟨hresolve, by rw [hresolve]; exact length_truncate390_le _, ?_⟩
    intro hlong
    rw [hresolve]
    unfold truncate390
    rw [if_pos hlong]
    refine ⟨rfl, ?_⟩
    simp [List.length_take, str]
    omega

/-- A listing with a 400-character title, used to exercise the truncation
branch concretely. -/
def bigCard : Listing :=
  ⟨List.replicate 400 'a', str "N/A", [], false, false, List.replicate 400 'a'⟩

set_option maxRecDepth 40000 in
/-- Witness for C1 (amended): on a matching 400-character title the reply is
non-empty and truncated to exactly 390 characters. -/
theorem claim1_witness :
    resolveL (str "aaa") (str "Streamer") [bigCard] ≠ [] ∧
      (resolveL (str "aaa") (str "Streamer") [bigCard]).length = 390 := by
  have h := claim1_amended (str "aaa") (str "Streamer") [bigCard]
  exact ⟨h.1, ((h.2 (by decide)).2.2 (by decide)).2⟩

/-! ### Claim C6: the concrete Pikachu resolution -/

/-- The raw non-foil Pikachu listing of the claim. -/
def pikachuRaw1 : RawListing :=
  ⟨some (str "Pikachu VMAX"), some (str "$45.00"), some (str "Vivid Voltage")⟩

/-- The raw foil Pikachu listing of the claim. -/
def pikachuRaw2 : RawListing :=
  ⟨some (str "Pikachu VMAX (Foil)"), some (str "$60.00"), some (str "Vivid Voltage")⟩

/-- The normalized non-foil Pikachu listing. -/
def pikachuL1 : Listing :=
  ⟨str "Pikachu VMAX", str "$45.00", str "Vivid Voltage", false, false, str "pikachu vmax"⟩

/-- The normalized foil Pikachu listing. -/
def pikachuL2 : Listing :=
  ⟨str "Pikachu VMAX (Foil)", str "$60.00", str "Vivid Voltage", true, false, str "pikachu vmax"⟩

set_option maxRecDepth 40000 in
/-- C6: the claim's two listings normalize exactly to the records of the
claim, and `resolve` renders the both-variants format verbatim. -/
theorem claim6_pikachu :
    normalize pikachuRaw1 = some pikachuL1 ∧
      normalize pikachuRaw2 = some pikachuL2 ∧
      resolve "pikachu vmax" "Streamer" [pikachuL1, pikachuL2] =
        "Streamer, Card: pikachu vmax (Vivid Voltage) | Regular: $45.00 | Foil: $60.00" := by
  refine ⟨by decide, by decide, by decide⟩

/-! ### Claim C7: the listing normalizer -/

/-- C7: `normalize` discards exactly the records whose title is absent or
empty after trimming; on success the price text defaults to `"N/A"` and the
set name to the empty string when the element is absent, the foil flag is
case-insensitive containment of `"foil"` in the title, and the clean title is
the lowercased title with `"(foil)"` and then `"foil"` removed and the result
trimmed. -/
theorem claim7_normalizer (raw : RawListing) :
    (normalize raw = none ↔ trimL (raw.titleEl.getD []) = []) ∧
    (∀ L, normalize raw = some L →
      (raw.priceEl = none → L.market = str "N/A") ∧
      (raw.setEl = none → L.setName = []) ∧
      L.isFoil = containsSub (lowerL L.title) (str "foil") ∧
      L.cleanTitle =
        trimL (removeSub (str "foil") (removeSub (str "(foil)") (lowerL L.title)))) := by
  cases raw with
  | mk titleEl priceEl setEl =>
    cases titleEl with
    | none =>
      constructor
      · simp [normalize, trimL]
      · intro L hL
        simp [normalize] at hL
    | some s =>
      by_cases ht : (trimL s).isEmpty
      · constructor
        · simp only [normalize, ht, if_pos, Option.getD_some]
          rw [List.isEmpty_iff] at ht
          simp [ht]
        · intro L hL
          simp only [normalize, ht, if_pos] at hL
          cases hL
      · constructor
        · simp only [normalize, ht, Option.getD_some]
          rw [if_neg (by simp [ht])]
          rw [List.isEmpty_iff] at ht
          simp [ht]
        · intro L hL
          simp only [normalize] at hL
          rw [if_neg (by simp [ht])] at hL
          rw [Option.some.injEq] at hL
          subst hL
          refine ⟨?_, ?_, rfl, rfl⟩
          · intro hp
            subst hp
            rfl
          · intro hs
            subst hs
            rfl

/-- The concrete record for the C7 witness. -/
def foilRaw : RawListing := ⟨some (str " Pikachu (Foil) "), none, none⟩

/-- The normalized form of `foilRaw`. -/
def foilL : Listing :=
  ⟨str "Pikachu (Foil)", str "N/A", [], true, false, str "pikachu"⟩

set_option maxRecDepth 40000 in
/-- Witness for C7 on a concrete record lacking price and set elements. -/
theorem claim7_witness :
    (normalize foilRaw = none ↔ trimL (foilRaw.titleEl.getD []) = []) ∧
      foilL.market = str "N/A" ∧ foilL.setName = [] ∧
      foilL.isFoil = containsSub (lowerL foilL.title) (str "foil") ∧
      foilL.cleanTitle =
        trimL (removeSub (str "foil") (removeSub (str "(foil)") (lowerL foilL.title))) := by
  have h := claim7_normalizer foilRaw
  have h2 := h.2 foilL (by decide)
  exact ⟨h.1, h2.1 rfl, h2.2.1 rfl, h2.2.2⟩

/-! ### Claim C8: the fallback paths -/

/-- C8: with no listings the pipeline returns (it cannot throw — it is a
total function) the "no product cards found" message containing the query;
with listings but no listing accepted by the matcher it returns the
"no exact match" message naming the first listing's title, set name and
price text. -/
theorem claim8_fallbacks (q u : List Char) (products : List Listing) :
    (products = [] →
      resolveL q u products =
        u ++ str ", no product cards found for \"" ++ q ++ str "\"") ∧
    (∀ p0 rest, products = p0 :: rest →
      (∀ c ∈ products, isMatchCode q c = false) →
      resolveL q u products =
        u ++ str ", no exact match for \"" ++ q ++ str "\". Found: " ++
          p0.title ++ str " (" ++ p0.setName ++ str ") | Price: " ++ p0.market) := by
  constructor
  · intro h
    subst h
    rfl
  · intro p0 rest hp hall
    subst hp
    have hempty : matchingCards q (p0 :: rest) = [] :=
      List.filter_eq_nil_iff.mpr (fun a ha => by simp [hall a ha])
    simp only [resolveL]
    rw [if_pos (by simp [hempty])]

/-- The Charizard listing of the specification's no-match example. -/
def charizardL : Listing :=
  ⟨str "Charizard", str "$100.00", str "Base Set", false, false, str "charizard"⟩

set_option maxRecDepth 40000 in
/-- Witness for C8: the exact "arceus" string of the claim, and the no-match
fallback naming Charizard for the query "mewtwo". -/
theorem claim8_witness :
    resolveL (str "arceus") (str "Streamer") [] =
      str "Streamer, no product cards found for \"arceus\"" ∧
    resolveL (str "mewtwo") (str "Streamer") [charizardL] =
      str "Streamer, no exact match for \"mewtwo\". Found: Charizard (Base Set) | Price: $100.00" := by
  constructor
  · rw [(claim8_fallbacks (str "arceus") (str "Streamer") []).1 rfl]
    decide
  · rw [(claim8_fallbacks (str "mewtwo") (str "Streamer") [charizardL]).2 charizardL [] rfl
      (by decide)]
    decide

/-! ### Claim C9: heap lemmas and purity of the pipeline -/

/-- Allocation preserves every existing array. -/
theorem JsHeap.read_alloc_lt (h : JsHeap) (x : List Listing) (j : Nat)
    (hj : j < h.arrays.length) : (h.alloc x).2.read j = h.read j := by
  simp only [JsHeap.alloc, JsHeap.read]
  exact List.getD_append _ _ _ _ hj

/-- Reading a freshly allocated array yields its contents. -/
theorem JsHeap.read_alloc_self (h : JsHeap) (x : List Listing) :
    (h.alloc x).2.read h.arrays.length = x := by
  simp only [JsHeap.alloc, JsHeap.read]
  rw [List.getD_append_right _ _ _ _ (le_refl _)]
  simp

/-- In-place writes do not touch other arrays. -/
theorem JsHeap.read_write_ne (h : JsHeap) (i : Nat) (x : List Listing) (j : Nat)
    (hne : j ≠ i) : (h.write i x).read j = h.read j := by
  simp only [JsHeap.write, JsHeap.read, List.getD]
  rw [List.get?_set_ne _ _ (Ne.symm hne)]

/-- Reading back an in-place write. -/
theorem JsHeap.read_write_self (h : JsHeap) (i : Nat) (x : List Listing)
    (hi : i < h.arrays.length) : (h.write i x).read i = x := by
  simp [JsHeap.write, JsHeap.read, List.getD, List.getElem?_set_self, hi]

/-- Allocation grows the heap by one array. -/
theorem JsHeap.alloc_length (h : JsHeap) (x : List Listing) :
    (h.alloc x).2.arrays.length = h.arrays.length + 1 := by
  simp [JsHeap.alloc]

/-- Writes preserve the heap size. -/
theorem JsHeap.write_length (h : JsHeap) (i : Nat) (x : List Listing) :
    (h.write i x).arrays.length = h.arrays.length := by
  simp [JsHeap.write]

/-- The heap replay of the selector returns the value of the pure
`prioritizeMainSet` on the dereferenced argument, mutates no pre-existing
array, and only grows the heap. -/
theorem pmsH_spec (cid : Nat) (h : JsHeap) (hcid : cid < h.arrays.length) :
    (prioritizeMainSetH cid h).1 = prioritizeMainSet (h.read cid) ∧
    (∀ j, j < h.arrays.length → (prioritizeMainSetH cid h).2.read j = h.read j) ∧
    h.arrays.length ≤ (prioritizeMainSetH cid h).2.arrays.length := by
  unfold prioritizeMainSetH prioritizeMainSet
  by_cases hc : (h.read cid).isEmpty
  · rw [if_pos hc, if_pos hc]
    exact ⟨rfl, fun j _ => rfl, le_refl _⟩
  · rw [if_neg hc, if_neg hc]
    simp only
    have hmid : (h.alloc ((h.read cid).filter mainPred)).2.read h.arrays.length =
        (h.read cid).filter mainPred := JsHeap.read_alloc_self h _
    have hlen1 : (h.alloc ((h.read cid).filter mainPred)).2.arrays.length =
        h.arrays.length + 1 := JsHeap.alloc_length h _
    rw [hmid]
    by_cases hm : ((h.read cid).filter mainPred).isEmpty
    · rw [if_pos hm, if_pos hm]
      have hcid1 : (h.alloc ((h.read cid).filter mainPred)).2.read cid = h.read cid :=
        JsHeap.read_alloc_lt h _ cid hcid
      rw [hcid1]
      have htid : ((h.alloc ((h.read cid).filter mainPred)).2.alloc
            ((h.read cid).filter notNullPrice)).2.read
          (h.alloc ((h.read cid).filter mainPred)).2.arrays.length =
          (h.read cid).filter notNullPrice :=
        JsHeap.read_alloc_self _ _
      rw [htid]
      set hp1 := (h.alloc ((h.read cid).filter mainPred)).2 with hhp1
      set hp2 := (hp1.alloc ((h.read cid).filter notNullPrice)).2 with hhp2
      have hlen2 : hp2.arrays.length = h.arrays.length + 2 := by
        rw [hhp2, JsHeap.alloc_length, hlen1]
      have htid_lt : hp1.arrays.length < hp2.arrays.length := by
        rw [hlen1, hlen2]
        omega
      have hw_tid : (hp2.write hp1.arrays.length
            (insSort sortLt ((h.read cid).filter notNullPrice))).read hp1.arrays.length =
          insSort sortLt ((h.read cid).filter notNullPrice) :=
        JsHeap.read_write_self hp2 _ _ htid_lt
      have hcid_ne : cid ≠ hp1.arrays.length := by
        rw [hlen1]
        omega
      have hw_cid : (hp2.write hp1.arrays.length
            (insSort sortLt ((h.read cid).filter notNullPrice))).read cid = h.read cid := by
        rw [JsHeap.read_write_ne hp2 _ _ cid hcid_ne, hhp2,
          JsHeap.read_alloc_lt hp1 _ cid (by rw [hlen1]; omega), hhp1,
          JsHeap.read_alloc_lt h _ cid hcid]
      refine ⟨?_, ?_, ?_⟩
      · rw [hw_tid, hw_cid]
      · intro j hj
        rw [JsHeap.read_write_ne hp2 _ _ j (by rw [hlen1]; omega), hhp2,
          JsHeap.read_alloc_lt hp1 _ j (by rw [hlen1]; omega), hhp1,
          JsHeap.read_alloc_lt h _ j hj]
      · rw [JsHeap.write_length, hlen2]
        omega
    · rw [if_neg hm, if_neg hm]
      set hp1 := (h.alloc ((h.read cid).filter mainPred)).2 with hhp1
      have hmid_lt : h.arrays.length < hp1.arrays.length := by
        rw [hlen1]
        omega
      have hw_mid : (hp1.write h.arrays.length
            (insSort sortLt ((h.read cid).filter mainPred))).read h.arrays.length =
          insSort sortLt ((h.read cid).filter mainPred) :=
        JsHeap.read_write_self hp1 _ _ hmid_lt
      refine ⟨?_, ?_, ?_⟩
      · dsimp only
        rw [hw_mid]
      · intro j hj
        dsimp only
        rw [JsHeap.read_write_ne hp1 _ _ j (by omega), hhp1,
          JsHeap.read_alloc_lt h _ j hj]
      · dsimp only
        rw [JsHeap.write_length, hlen1]
        omega

/-- The heap replay of the matched phase returns exactly the pure
`resolveL` of the dereferenced `products` array, mutates no pre-existing
array, and only grows the heap. -/
theorem resolveLH_spec (q u : List Char) (h : JsHeap) (h0 : 0 < h.arrays.length) :
    (resolveLH q u h).1 = resolveL q u (h.read 0) ∧
    (∀ j, j < h.arrays.length → (resolveLH q u h).2.read j = h.read j) ∧
    h.arrays.length ≤ (resolveLH q u h).2.arrays.length := by
  unfold resolveLH
  by_cases hc : (h.read 0).isEmpty
  · rw [if_pos hc]
    rw [List.isEmpty_iff] at hc
    refine ⟨?_, fun j _ => rfl, le_refl _⟩
    rw [hc]
    rfl
  · rw [if_neg hc]
    have hne : h.read 0 ≠ [] := fun h' => hc (by simp [h'])
    obtain ⟨p0, rest, hprods⟩ := List.exists_cons_of_ne_nil hne
    have hmid : (h.alloc (matchingCards q (h.read 0))).2.read h.arrays.length =
        matchingCards q (h.read 0) := JsHeap.read_alloc_self h _
    have hlen1 : (h.alloc (matchingCards q (h.read 0))).2.arrays.length =
        h.arrays.length + 1 := JsHeap.alloc_length h _
    have hr1 : ∀ j, j < h.arrays.length →
        (h.alloc (matchingCards q (h.read 0))).2.read j = h.read j :=
      fun j hj => JsHeap.read_alloc_lt h _ j hj
    dsimp only
    rw [hmid]
    by_cases hm : (matchingCards q (h.read 0)).isEmpty
    · rw [if_pos hm]
      refine ⟨?_, fun j hj => hr1 j hj, by rw [hlen1]; omega⟩
      rw [hr1 0 h0, hprods]
      simp only [resolveL, List.headD_cons]
      rw [if_pos (by rw [← hprods]; exact hm)]
    · rw [if_neg hm]
      have hres : resolveL q u (h.read 0) =
          truncate390 (selectionMessage q u (matchingCards q (h.read 0))) := by
        rw [hprods]
        simp only [resolveL]
        rw [if_neg (by rw [← hprods]; exact hm), ← hprods]
      set M := matchingCards q (h.read 0) with hM
      set hp1 := (h.alloc M).2 with hhp1
      set hp2 := (hp1.alloc (M.filter fun c => !c.isFoil)).2 with hhp2
      have hlen2 : hp2.arrays.length = h.arrays.length + 2 := by
        rw [hhp2, JsHeap.alloc_length, hlen1]
      have h2mid : hp2.read h.arrays.length = M := by
        rw [hhp2, JsHeap.read_alloc_lt hp1 _ _ (by rw [hlen1]; omega), hhp1, hmid]
      rw [h2mid]
      set hp3 := (hp2.alloc (M.filter fun c => c.isFoil)).2 with hhp3
      have hlen3 : hp3.arrays.length = h.arrays.length + 3 := by
        rw [hhp3, JsHeap.alloc_length, hlen2]
      have hnfid : hp3.read hp1.arrays.length = M.filter fun c => !c.isFoil := by
        rw [hhp3, JsHeap.read_alloc_lt hp2 _ _ (by rw [hlen1, hlen2]; omega), hhp2,
          JsHeap.read_alloc_self hp1 _]
      have hfid : hp3.read hp2.arrays.length = M.filter fun c => c.isFoil := by
        rw [hhp3, JsHeap.read_alloc_self hp2 _]
      have hr3 : ∀ j, j < h.arrays.length → hp3.read j = h.read j := by
        intro j hj
        rw [hhp3, JsHeap.read_alloc_lt hp2 _ _ (by rw [hlen2]; omega), hhp2,
          JsHeap.read_alloc_lt hp1 _ _ (by rw [hlen1]; omega), hhp1, hr1 j hj]
      have hpms1 := pmsH_spec hp1.arrays.length hp3 (by rw [hlen1, hlen3]; omega)
      have hpms2 := pmsH_spec hp2.arrays.length (prioritizeMainSetH hp1.arrays.length hp3).2
        (by
          have := hpms1.2.2
          rw [hlen2]
          rw [hlen3] at this
          omega)
      have hfst2 : (prioritizeMainSetH hp2.arrays.length
            (prioritizeMainSetH hp1.arrays.length hp3).2).1 =
          prioritizeMainSet (M.filter fun c => c.isFoil) := by
        rw [hpms2.1, hpms1.2.1 hp2.arrays.length (by rw [hlen2, hlen3]; omega), hfid]
      have hfst1 : (prioritizeMainSetH hp1.arrays.length hp3).1 =
          prioritizeMainSet (M.filter fun c => !c.isFoil) := by
        rw [hpms1.1, hnfid]
      refine ⟨?_, ?_, ?_⟩
      · dsimp only
        rw [hfst1, hfst2, hres]
        rfl
      · intro j hj
        dsimp only
        rw [hpms2.2.1 j (by
            have := hpms1.2.2
            rw [hlen3] at this
            omega),
          hpms1.2.1 j (by rw [hlen3]; omega), hr3 j hj]
      · dsimp only
        have l1 := hpms1.2.2
        have l2 := hpms2.2.2
        rw [hlen3] at l1
        omega

/-- C9: the pipeline is deterministic and stateless.  Replayed on the
explicit heap with the `products` array at reference 0, a call returns
exactly the pure `resolveL` value, leaves the `products` array (and hence
each of its listing elements, which are immutable values here because the
pipeline never assigns to listing fields) unchanged, and a second successive
call on the resulting heap returns the identical string and again leaves the
array unchanged. -/
theorem claim9_stateless (q u : List Char) (l : List Listing) :
    (resolveLH q u ⟨[l]⟩).1 = resolveL q u l ∧
    (resolveLH q u ⟨[l]⟩).2.read 0 = l ∧
    (resolveLH q u ((resolveLH q u ⟨[l]⟩).2)).1 = (resolveLH q u ⟨[l]⟩).1 ∧
    (resolveLH q u ((resolveLH q u ⟨[l]⟩).2)).2.read 0 = l := by
  have hread0 : (⟨[l]⟩ : JsHeap).read 0 = l := rfl
  have h1 := resolveLH_spec q u ⟨[l]⟩ (by simp)
  have hr0 : (resolveLH q u ⟨[l]⟩).2.read 0 = l := by
    rw [h1.2.1 0 (by simp), hread0]
  have hlen : 0 < (resolveLH q u ⟨[l]⟩).2.arrays.length :=
    lt_of_lt_of_le (by simp) h1.2.2
  have h2 := resolveLH_spec q u (resolveLH q u ⟨[l]⟩).2 hlen
  refine ⟨by rw [h1.1, hread0], hr0, ?_, ?_⟩
  · rw [h2.1, hr0, h1.1, hread0]
  · rw [h2.2.1 0 hlen, hr0]

/-! ### Claim C2: the response cache -/

/-- Looking up a key just written returns the written entry. -/
theorem lookupA_setA_self (key : List Char) (e : CEntry) (c : List (List Char × CEntry)) :
    lookupA key (setA key e c) = some e := by
  induction c with
  | nil => simp [setA, lookupA]
  | cons kv rest ih =>
    obtain ⟨k, e0⟩ := kv
    unfold setA
    by_cases hk : k = key
    · rw [if_pos hk]
      unfold lookupA
      rw [if_pos hk]
    · rw [if_neg hk]
      unfold lookupA
      rw [if_neg hk]
      exact ih

/-- A list is a Boolean prefix of itself followed by anything. -/
theorem isPrefixOf_append_self (l t : List Char) : l.isPrefixOf (l ++ t) = true := by
  induction l with
  | nil => cases t <;> rfl
  | cons c cs ih => simp [List.isPrefixOf, ih]

/-- Replacing the first occurrence of a leading needle. -/
theorem jsReplaceFirst_append (needle repl t : List Char) (hne : needle ≠ []) :
    jsReplaceFirst needle repl (needle ++ t) = repl ++ t := by
  cases needle with
  | nil => exact absurd rfl hne
  | cons n0 ns =>
    show jsReplaceFirst (n0 :: ns) repl (n0 :: (ns ++ t)) = repl ++ t
    unfold jsReplaceFirst
    rw [if_pos (show (n0 :: ns).isPrefixOf (n0 :: (ns ++ t)) = true from
      isPrefixOf_append_self (n0 :: ns) t)]
    rw [show n0 :: (ns ++ t) = (n0 :: ns) ++ t from rfl, List.drop_left]

/-- The length guard preserves a short prefix. -/
theorem truncate390_head_intact (u m : List Char) (hu : u.length ≤ 387) :
    ∃ r, truncate390 (u ++ m) = u ++ r := by
  unfold truncate390
  split
  · refine ⟨m.take (387 - u.length) ++ str "...", ?_⟩
    rw [List.take_append_eq_append_take, List.take_of_length_le hu, List.append_assoc]
  · exact ⟨m, rfl⟩

/-- Every reply of the cached variant's pipeline starts with the caller's
name (for names of at most 387 characters the length guard cannot cut into
the prefix). -/
theorem resolve1_starts_with_user (t u : List Char) (products : List Listing1)
    (hu : u.length ≤ 387) : ∃ r, resolve1 t u products = u ++ r := by
  cases products with
  | nil =>
    refine ⟨str ", no results found for \"" ++ t ++ str "\"", ?_⟩
    simp [resolve1, List.append_assoc]
  | cons p0 rest =>
    simp only [resolve1]
    rw [List.append_assoc]
    exact truncate390_head_intact u _ hu

/-- C2 (amended): for two lookups of the same normalized query within
`CACHE_TTL` of the first write, the listing fetch and pipeline run only once
and the second lookup returns the stored message with its first occurrence of
the literal `"Streamer"` replaced by the second caller's username.  The
stored message embeds the FIRST caller's username — it is not produced
against a generic placeholder — so the substitution yields the second
caller's name exactly when the first call used the default username
`"Streamer"`. -/
theorem claim2_amended (products : List Listing1) (term1 term2 u1 u2 : List Char)
    (t0 t1 : Nat) (cache0 : List (List Char × CEntry))
    (hkey : cacheKey term2 = cacheKey term1)
    (hmiss : lookupA (cacheKey term1) cache0 = none)
    (hfresh : t1 - t0 < CACHE_TTL) :
    (fetchCardPrice1 products term1 u1 t0 cache0).2.2 = true ∧
    (fetchCardPrice1 products term2 u2 t1
        (fetchCardPrice1 products term1 u1 t0 cache0).2.1).2.2 = false ∧
    (fetchCardPrice1 products term2 u2 t1
        (fetchCardPrice1 products term1 u1 t0 cache0).2.1).2.1 =
      (fetchCardPrice1 products term1 u1 t0 cache0).2.1 ∧
    (fetchCardPrice1 products term2 u2 t1
        (fetchCardPrice1 products term1 u1 t0 cache0).2.1).1 =
      jsReplaceFirst (str "Streamer") u2 (fetchCardPrice1 products term1 u1 t0 cache0).1 ∧
    (u1 = str "Streamer" →
      ∃ rest, (fetchCardPrice1 products term1 u1 t0 cache0).1 = str "Streamer" ++ rest ∧
        (fetchCardPrice1 products term2 u2 t1
          (fetchCardPrice1 products term1 u1 t0 cache0).2.1).1 = u2 ++ rest) := by
  have hcall1 : fetchCardPrice1 products term1 u1 t0 cache0 =
      (resolve1 term1 u1 products,
        setA (cacheKey term1) ⟨resolve1 term1 u1 products, t0⟩ cache0, true) := by
    unfold fetchCardPrice1
    dsimp only
    rw [hmiss]
  have hcall2 : fetchCardPrice1 products term2 u2 t1
      (setA (cacheKey term1) ⟨resolve1 term1 u1 products, t0⟩ cache0) =
      (jsReplaceFirst (str "Streamer") u2 (resolve1 term1 u1 products),
        setA (cacheKey term1) ⟨resolve1 term1 u1 products, t0⟩ cache0, false) := by
    unfold fetchCardPrice1
    dsimp only
    rw [hkey, lookupA_setA_self]
    dsimp only
    rw [if_pos hfresh]
  rw [hcall1]
  dsimp only
  rw [hcall2]
  refine ⟨rfl, rfl, rfl, rfl, ?_⟩
  intro hu1
  subst hu1
  obtain ⟨r, hr⟩ := resolve1_starts_with_user term1 (str "Streamer") products (by decide)
  refine ⟨r, hr, ?_⟩
  dsimp only
  rw [hr, jsReplaceFirst_append _ _ _ (by decide)]

/-- C2 counterexample: the first caller "Alice" resolves (and caches) the
message; the second caller "Bob" receives the cached text still prefixed with
"Alice" — the `replace("Streamer", user)` substitution finds no placeholder,
so the cached message is NOT independent of the original caller as the claim
asserts. -/
theorem claim2_counterexample :
    (fetchCardPrice1 [] (str "x") (str "Bob") 1
        (fetchCardPrice1 [] (str "x") (str "Alice") 0 []).2.1).1 =
      str "Alice, no results found for \"x\"" ∧
    (fetchCardPrice1 [] (str "x") (str "Bob") 1
        (fetchCardPrice1 [] (str "x") (str "Alice") 0 []).2.1).1 ≠
      str "Bob, no results found for \"x\"" := by
  constructor <;> decide

/-- Witness for C2 (amended): with the default first caller the second caller
"Bob" receives the same text with the username substituted, and the fetch
runs only on the first call. -/
theorem claim2_witness :
    (fetchCardPrice1 [] (str "x") (str "Streamer") 0 []).2.2 = true ∧
    (fetchCardPrice1 [] (str "x") (str "Bob") 1
        (fetchCardPrice1 [] (str "x") (str "Streamer") 0 []).2.1).2.2 = false ∧
    ∃ rest, (fetchCardPrice1 [] (str "x") (str "Streamer") 0 []).1 =
        str "Streamer" ++ rest ∧
      (fetchCardPrice1 [] (str "x") (str "Bob") 1
        (fetchCardPrice1 [] (str "x") (str "Streamer") 0 []).2.1).1 =
        str "Bob" ++ rest := by
  have h := claim2_amended [] (str "x") (str "x") (str "Streamer") (str "Bob") 0 1 []
    rfl (by decide) (by decide)
  exact ⟨h.1, h.2.1, h.2.2.2.2 rfl⟩

end MtgSpec
